import Mathlib

/-!
Verification of the schema-walking and interface-synthesis engine of
`typed_els.py`: a compiler from an Elasticsearch index mapping (a JSON
document) to TypeScript interface declarations.

The source program is shallowly embedded below.  JSON documents become the
inductive type `Json`; Python's runtime errors (failed `assert`, `TypeError`
on `in`/indexing for the wrong runtime type, `AttributeError` for a missing
`.get`/`.items`, `KeyError` on a missing dict key, and `click.BadParameter`)
become the `PyErr` error type threaded through `Except`.  The generator
functions of the source are embedded eagerly: in the source the whole record
stream is consumed by `sorted(...)` inside `print_typed_properties` before a
single byte is printed, so an exception anywhere in the traversal yields no
output at all, which is exactly the behaviour of the `Except` embedding.
The process-global used-name `set` is embedded as an explicitly threaded
`List String` (only membership and insertion are ever used).  `logging`
warnings are embedded as a list of the datatype values being warned about
(the source formats them into a fixed message on stderr; the message text
never reaches stdout).  JSON numbers are embedded as integers; no claim
distinguishes float behaviour.
-/

/-- JSON values, as produced by `json.load`.  Objects keep insertion order,
matching Python 3.7+ `dict` semantics; `json.load` never produces duplicate
keys in one object. -/
inductive Json where
  | null
  | bool (b : Bool)
  | num (n : Int)
  | str (s : String)
  | arr (elements : List Json)
  | obj (entries : List (String × Json))

/-- Python runtime errors that the embedded fragment can raise. -/
inductive PyErr where
  | assertionError
  | typeError
  | attributeError
  | keyError
  | badParameter
deriving DecidableEq

/-- The namedtuple `TypedProperty(interface, property, type, comment)`. -/
structure TypedProperty where
  interface : String
  property : String
  type : String
  comment : String
deriving DecidableEq

/-- First match wins lookup in a JSON object's entry list (Python `dict`
lookup; `json.load` objects have unique keys anyway). -/
def lookupKey (entries : List (String × Json)) (key : String) : Option Json :=
  match entries with
  | [] => none
  | (k, v) :: rest => if k == key then some v else lookupKey rest key

/-- Python `'key' in mapping` for a dict. -/
def hasKey (entries : List (String × Json)) (key : String) : Bool :=
  (lookupKey entries key).isSome

/-- Python truthiness of a JSON value (`if datatype:`). -/
def jsonTruthy : Json → Bool
  | Json.null => false
  | Json.bool b => b
  | Json.num n => n != 0
  | Json.str s => s != ""
  | Json.arr xs => !xs.isEmpty
  | Json.obj kvs => !kvs.isEmpty

/-- Whether the character list `needle` is a prefix of `hay`
(helper for Python's substring test `needle in string`). -/
def charsStartWith : List Char → List Char → Bool
  | [], _ => true
  | _ :: _, [] => false
  | n :: ns, h :: hs => n == h && charsStartWith ns hs

/-- Whether `needle` occurs as a contiguous substring of `hay`
(Python `needle in string`). -/
def charsContain (needle : List Char) : List Char → Bool
  | [] => needle.isEmpty
  | c :: rest => charsStartWith needle (c :: rest) || charsContain needle rest

/-- The fixed compound literal `_GEO_POINT_TYPE`. -/
def _GEO_POINT_TYPE : String := "\x7blat: number, lon: number\x7d"

/-- The fixed compound literal `_GEO_SHAPE_TYPE`: the nine geometry lines of
the source joined with `' | '`. -/
def _GEO_SHAPE_TYPE : String :=
  "\x7bcoordinates: number[], type: \x27Point\x27\x7d"
  ++ " | \x7bcoordinates: number[][], type: \x27MultiPoint\x27\x7d"
  ++ " | \x7bcoordinates: number[][], type: \x27LineString\x27\x7d"
  ++ " | \x7bcoordinates: number[][][], type: \x27MultiLineString\x27\x7d"
  ++ " | \x7bcoordinates: number[][], type: \x27Polygon\x27\x7d"
  ++ " | \x7bcoordinates: number[][][][], type: \x27MultiPolygon\x27\x7d"
  ++ " | \x7bcoordinates: number[][], type: \x27Envelope\x27\x7d"
  ++ " | \x7bcoordinates: number[], radius: string | number, type: \x27Circle\x27\x7d"
  ++ " | \x7bgeometries: any[], type: \x27GeometryCollection\x27\x7d"

/-- The static table `_TYPE_MAPPINGS` (ELS type name to TS type expression),
in source order. -/
def _TYPE_MAPPINGS : List (String × String) :=
  [("byte", "number"),
   ("date", "number"),
   ("float", "number"),
   ("integer", "number"),
   ("double", "number"),
   ("long", "number"),
   ("short", "number"),
   ("half_float", "number"),
   ("scaled_float", "number"),
   ("object", "\x7b[key: string]: any\x7d"),
   ("binary", "string"),
   ("ip", "string"),
   ("keyword", "string"),
   ("string", "string"),
   ("text", "string"),
   ("boolean", "boolean"),
   ("geo_point", _GEO_POINT_TYPE),
   ("geo_shape", _GEO_SHAPE_TYPE)]

/-- Lookup `_TYPE_MAPPINGS.get(name)` for a string key. -/
def typeMappingGet (name : String) : Option String :=
  match _TYPE_MAPPINGS.find? (fun kv => kv.fst == name) with
  | some kv => some kv.snd
  | none => none

/-- The set `_RESERVED_KEYWORDS`, in source order. -/
def _RESERVED_KEYWORDS : List String :=
  ["break", "case", "catch", "class", "const", "continue", "debugger",
   "default", "delete", "do", "else", "enum", "export", "extends", "false",
   "finally", "for", "function", "if", "import", "in", "instanceof", "new",
   "null", "return", "super", "switch", "this", "throw", "true", "try",
   "typeof", "var", "void", "while", "with",
   "as", "implements", "interface", "let", "package", "private", "protected",
   "public", "static", "yield",
   "any", "boolean", "constructor", "declare", "from", "get", "module",
   "number", "of", "require", "set", "string", "symbol", "type",
   "object"]

/-- ASCII `\w` of `re.ASCII`: `[A-Za-z0-9_]`. -/
def isWordChar (c : Char) : Bool := c.isAlpha || c.isDigit || c == '_'

/-- The character class of `_INTERFACE_NAME_1`, `(\w|\$)`. -/
def isNameStartChar (c : Char) : Bool := isWordChar c || c == '$'

/-- The character class `(\w|\d|\$)` of the tail of `_INTERFACE_NAME`. -/
def isNameRestChar (c : Char) : Bool := isWordChar c || c.isDigit || c == '$'

/-- The character class of `_INTERFACE_NAME_INVALID`, `[^\w\$]`. -/
def isNameInvalidChar (c : Char) : Bool := !(isWordChar c || c == '$')

/-- Test `re.fullmatch(_INTERFACE_NAME, s)`: the whole string matches
`(\w|\$)(\w|\d|\$)*`. -/
def isInterfaceName (s : String) : Bool :=
  match s.data with
  | [] => false
  | c :: cs => isNameStartChar c && cs.all isNameRestChar

/-- Python `name.replace(name[0], '_', 1)` on the character list: replace the
first occurrence of `target` by an underscore. -/
def replaceFirst (target : Char) : List Char → List Char
  | [] => []
  | c :: cs => if c == target then '_' :: cs else c :: replaceFirst target cs

/-- Function `normalize_interface_name` of the source: empty becomes `"_"`; an invalid
first character is replaced (via `str.replace` of its first occurrence, which
is position 0) by `'_'`; every remaining `[^\w\$]` character is substituted by
`'_'`; a reserved keyword gets a trailing underscore. -/
def normalize_interface_name (name : String) : String :=
  match name.data with
  | [] => "_"
  | c :: cs =>
    let chars := if isNameStartChar c then c :: cs else replaceFirst c (c :: cs)
    let chars := chars.map (fun x => if isNameInvalidChar x then '_' else x)
    let s := String.mk chars
    if s ∈ _RESERVED_KEYWORDS then s ++ "_" else s

/-- Character for the decimal digit `d` (`'0'` to `'9'` for `d < 10`). -/
def digitChar (d : Nat) : Char := Char.ofNat (48 + d)

/-- Decimal digit characters of `n`, most significant first; `fuel ≥ n`
suffices because `n / 10 < n` for `n > 0`. -/
def natDigitsAux : Nat → Nat → List Char
  | _, 0 => []
  | n, fuel + 1 => if n = 0 then [] else natDigitsAux (n / 10) fuel ++ [digitChar (n % 10)]

/-- Decimal representation of a natural number, as produced by Python's
`'{0}'.format(idx)`. -/
def natRepr (n : Nat) : String :=
  if n = 0 then "0" else String.mk (natDigitsAux n n)

/-- The candidate probed at step `idx` of the `while` loop of
`new_interface_name`: the bare name first, then `name_1`, `name_2`, ... -/
def candidateName (interface : String) : Nat → String
  | 0 => interface
  | k + 1 => interface ++ "_" ++ natRepr (k + 1)

/-- The probe loop of `new_interface_name`: starting at candidate index
`start`, return the first index whose candidate is unused.  `fuel`
bounds the number of probes; `used.length + 1` probes always suffice
(`candidateFree_exists` below), mirroring the terminating `while` loop. -/
def firstFreeAux (interface : String) (used : List String) : Nat → Nat → Nat
  | start, 0 => start
  | start, fuel + 1 =>
    if candidateName interface start ∈ used then firstFreeAux interface used (start + 1) fuel
    else start

/-- Function `new_interface_name` of the source: probe `interface`, `interface_1`,
`interface_2`, ... in increasing order, return the first candidate not in
`used_interface_names` and add it to the set (set insertion embedded as
consing onto the membership list). -/
def new_interface_name (interface : String) (used : List String) : String × List String :=
  let name := candidateName interface (firstFreeAux interface used 0 (used.length + 1))
  (name, name :: used)

/-- A sequence of allocation calls threaded through one used-name set, as
performed by one traversal: returns the allocated names in order. -/
def allocate_seq : List String → List String → List String
  | [], _ => []
  | c :: cs, used =>
    let r := new_interface_name c used
    r.fst :: allocate_seq cs r.snd

/-- Lowercase hexadecimal digit. -/
def hexDigit (d : Nat) : Char :=
  if d < 10 then Char.ofNat (48 + d) else Char.ofNat (87 + d)

/-- Four hex digits of `n % 65536`, as in a JSON `\uXXXX` escape. -/
def hex4 (n : Nat) : List Char :=
  [hexDigit (n / 4096 % 16), hexDigit (n / 256 % 16), hexDigit (n / 16 % 16),
   hexDigit (n % 16)]

/-- Escaping of one character by `json.dumps` (default `ensure_ascii=True`):
quote, backslash and the short control escapes specially, other controls and
all non-ASCII as `\uXXXX` (surrogate pairs above the BMP). -/
def escapeChar (c : Char) : List Char :=
  if c == '"' then ['\\', '"']
  else if c == '\\' then ['\\', '\\']
  else if c == '\n' then ['\\', 'n']
  else if c == '\t' then ['\\', 't']
  else if c == '\r' then ['\\', 'r']
  else if c == '\x08' then ['\\', 'b']
  else if c == '\x0c' then ['\\', 'f']
  else if c.toNat < 32 then '\\' :: 'u' :: hex4 c.toNat
  else if c.toNat < 127 then [c]
  else if c.toNat < 65536 then '\\' :: 'u' :: hex4 c.toNat
  else
    '\\' :: 'u' :: hex4 (55296 + (c.toNat - 65536) / 1024)
      ++ '\\' :: 'u' :: hex4 (56320 + (c.toNat - 65536) % 1024)

/-- Serialization `json.dumps` of a string value. -/
def dumpString (s : String) : String :=
  "\"" ++ String.mk (s.data.map escapeChar).flatten ++ "\""

/-- Decimal representation of an integer (`json.dumps` of a JSON number). -/
def intRepr (n : Int) : String :=
  if n < 0 then "-" ++ natRepr n.natAbs else natRepr n.natAbs

mutual

/-- Serialization `json.dumps` with its default separators `', '` and `': '`. -/
def dumps : Json → String
  | Json.null => "null"
  | Json.bool true => "true"
  | Json.bool false => "false"
  | Json.num n => intRepr n
  | Json.str s => dumpString s
  | Json.arr xs => "[" ++ dumpsList xs ++ "]"
  | Json.obj kvs => "\x7b" ++ dumpsObj kvs ++ "\x7d"

/-- Comma-joined dumps of array elements. -/
def dumpsList : List Json → String
  | [] => ""
  | [x] => dumps x
  | x :: y :: rest => dumps x ++ ", " ++ dumpsList (y :: rest)

/-- Comma-joined dumps of object entries. -/
def dumpsObj : List (String × Json) → String
  | [] => ""
  | [(k, v)] => dumpString k ++ ": " ++ dumps v
  | (k, v) :: e :: rest => dumpString k ++ ": " ++ dumps v ++ ", " ++ dumpsObj (e :: rest)

end

/-- The else-branch of the field loop of `generate_typed_properties` (the
definition carries no nested `properties`): look up `definition.get('type')`
and map it through `_TYPE_MAPPINGS`.  Returns the record to yield (if any)
and the datatype value warned about (if any).  A `dict` or `list` datatype
value is unhashable, so `.get` raises `TypeError`; the caller has already
ensured `definition` itself is a dict. -/
def leafRecord (interface : String) (property : String) (kvs : List (String × Json)) :
    Except PyErr (Option TypedProperty × Option Json) :=
  match lookupKey kvs "type" with
  | some (Json.arr _) => Except.error PyErr.typeError
  | some (Json.obj _) => Except.error PyErr.typeError
  | dt =>
    let ts : Option String :=
      match dt with
      | some (Json.str s) => typeMappingGet s
      | _ => none
    if (ts.getD "") ≠ "" then
      Except.ok (some ⟨interface, property, ts.getD "", dumps (Json.obj kvs)⟩, none)
    else
      match dt with
      | some v =>
        if jsonTruthy v then
          Except.ok (some ⟨interface, property, "any", dumps (Json.obj kvs)⟩, some v)
        else Except.ok (none, none)
      | none => Except.ok (none, none)

mutual

/-- Function `generate_typed_properties` of the source.  The entry `assert
re.fullmatch(_INTERFACE_NAME, interface)` becomes an `assertionError` result;
`properties.items()` on a non-dict raises `AttributeError`.  The result is
the fully consumed record stream together with the final used-name set and
the datatype values warned about, in emission order. -/
def generate_typed_properties (interface : String) (properties : Json)
    (used : List String) :
    Except PyErr (List TypedProperty × List String × List Json) :=
  if isInterfaceName interface then
    match properties with
    | Json.obj entries => genFields interface entries used
    | _ => Except.error PyErr.attributeError
  else Except.error PyErr.assertionError

/-- The `for property, definition in properties.items()` loop of
`generate_typed_properties`.  A falsy (empty) property name is skipped.
`'properties' in definition` follows Python semantics per runtime type:
key test for a dict, element test for a list, substring test for a string,
`TypeError` for the rest; when it holds, the inner interface candidate is
`'{interface}${property}'`, normalized then uniquely allocated, the nested
mapping is expanded first, and one record typed
`'{inner} | {inner}[]'` is emitted in the current interface. -/
def genFields (interface : String) (entries : List (String × Json))
    (used : List String) :
    Except PyErr (List TypedProperty × List String × List Json) :=
  match entries with
  | [] => Except.ok ([], used, [])
  | (property, defn) :: rest =>
    if property == "" then genFields interface rest used
    else
      match defn with
      | Json.obj kvs =>
        if hasKey kvs "properties" then
          let alloc := new_interface_name
            (normalize_interface_name (interface ++ "$" ++ property)) used
          match genLookup alloc.fst kvs alloc.snd with
          | Except.error e => Except.error e
          | Except.ok (recs1, used1, warns1) =>
            match genFields interface rest used1 with
            | Except.error e => Except.error e
            | Except.ok (recs2, used2, warns2) =>
              Except.ok
                (recs1
                  ++ ⟨interface, property,
                      alloc.fst ++ " | " ++ alloc.fst ++ "[]", dumps defn⟩ :: recs2,
                 used2, warns1 ++ warns2)
        else
          match leafRecord interface property kvs with
          | Except.error e => Except.error e
          | Except.ok (orec, owarn) =>
            match genFields interface rest used with
            | Except.error e => Except.error e
            | Except.ok (recs, used2, warns) =>
              Except.ok (orec.toList ++ recs, used2, owarn.toList ++ warns)
      | Json.str s =>
        if charsContain "properties".data s.data then Except.error PyErr.typeError
        else Except.error PyErr.attributeError
      | Json.arr xs =>
        if xs.any (fun x => match x with | Json.str t => t == "properties" | _ => false)
        then Except.error PyErr.typeError
        else Except.error PyErr.attributeError
      | _ => Except.error PyErr.typeError

/-- Subscript `definition['properties']` followed by the recursive call: scan the dict
entries for the key; a miss is Python's `KeyError` (never reached after a
successful `'properties' in definition`). -/
def genLookup (inner : String) (kvs : List (String × Json)) (used : List String) :
    Except PyErr (List TypedProperty × List String × List Json) :=
  match kvs with
  | [] => Except.error PyErr.keyError
  | (k, v) :: rest =>
    if k == "properties" then generate_typed_properties inner v used
    else genLookup inner rest used

end

mutual

/-- Function `search_typed_properties` of the source (the `used_interface_names=None`
default is supplied by the caller as the empty set).  A non-dict yields
nothing; a dict with a `properties` key allocates the normalized interface
name and expands it; any other dict is searched value by value. -/
def search_typed_properties (type : String) (mapping : Json) (used : List String) :
    Except PyErr (List TypedProperty × List String × List Json) :=
  match mapping with
  | Json.obj entries =>
    if hasKey entries "properties" then
      let alloc := new_interface_name (normalize_interface_name type) used
      genLookup alloc.fst entries alloc.snd
    else searchFields entries used
  | _ => Except.ok ([], used, [])

/-- The `for key, value in mapping.items()` loop of
`search_typed_properties`. -/
def searchFields (entries : List (String × Json)) (used : List String) :
    Except PyErr (List TypedProperty × List String × List Json) :=
  match entries with
  | [] => Except.ok ([], used, [])
  | (key, value) :: rest =>
    match search_typed_properties key value used with
    | Except.error e => Except.error e
    | Except.ok (r1, u1, w1) =>
      match searchFields rest u1 with
      | Except.error e => Except.error e
      | Except.ok (r2, u2, w2) => Except.ok (r1 ++ r2, u2, w1 ++ w2)

end

/-- The sort key `lambda tp: tp.interface` of `print_typed_properties`,
as the relation handed to the stable sort. -/
def tpOrder (a b : TypedProperty) : Prop := a.interface ≤ b.interface

instance : DecidableRel tpOrder := fun a b =>
  inferInstanceAs (Decidable (a.interface ≤ b.interface))

instance : IsTotal TypedProperty tpOrder := ⟨fun a b => le_total a.interface b.interface⟩

instance : IsTrans TypedProperty tpOrder := ⟨fun _ _ _ hab hbc => le_trans hab hbc⟩

/-- Grouping `itertools.groupby` with key `tp.interface`: group maximal runs of
consecutive records sharing one owning interface. -/
def groupConsec : List TypedProperty → List (String × List TypedProperty)
  | [] => []
  | x :: xs =>
    match groupConsec xs with
    | [] => [(x.interface, [x])]
    | (k, g) :: rest =>
      if x.interface = k then (k, x :: g) :: rest
      else (x.interface, [x]) :: (k, g) :: rest

/-- The text printed for one `TypedProperty`: optional doc comment block,
then the property line, then the blank line of the bare `print()`. -/
def renderTypedProperty (indent : String) (optional : Bool) (tp : TypedProperty) :
    String :=
  (if tp.comment ≠ "" then
    indent ++ "/**\n" ++ indent ++ " * " ++ tp.comment ++ "\n" ++ indent ++ " **/\n"
   else "")
  ++ indent ++ dumpString tp.property ++ (if optional then "?" else "")
  ++ ": " ++ tp.type ++ ";\n\n"

/-- The text printed for one interface group. -/
def renderInterfaceBlock (indent : String) (optional : Bool)
    (g : String × List TypedProperty) : String :=
  "export interface " ++ g.fst ++ " \x7b\n"
  ++ String.join (g.snd.map (renderTypedProperty indent optional))
  ++ "\x7d\n\n"

/-- Function `print_typed_properties` of the source, returning the full stdout text:
stable-sort the records by owning interface, group consecutively, and render
each group as one `export interface` block. -/
def print_typed_properties (tps : List TypedProperty) (indent : String)
    (optional : Bool) : String :=
  String.join ((groupConsec (List.insertionSort tpOrder tps)).map
    (renderInterfaceBlock indent optional))

/-- Function `parse_intent` of the source: `int(indent[:-1])` then `'w'` means space
and `'t'` means tab; anything else raises (embedded as `none`).  `int` is
embedded for the plain non-negative decimal literals the option grammar
`[0-9]+[w|t]` describes; the sign/whitespace forms Python's `int` also
accepts are immaterial to every claim. -/
def parse_intent (indent : String) : Option (Nat × Char) :=
  match indent.data with
  | [] => none
  | c :: cs =>
    let ds := (c :: cs).dropLast
    let last := (c :: cs).getLast (List.cons_ne_nil c cs)
    if ds.isEmpty then none
    else if ds.all Char.isDigit then
      let count := ds.foldl (fun acc ch => acc * 10 + (ch.toNat - 48)) 0
      if last == 'w' then some (count, ' ')
      else if last == 't' then some (count, '\t')
      else none
    else none

/-- The `command` entry point after `json.load` has produced `mapping`
(argument parsing and the stdin read themselves are CLI concerns outside the
core): an unparsable indent is `click.BadParameter`; otherwise the traversal
runs with a fresh used-name set and the record stream — fully consumed
first — is rendered.  A traversal error therefore produces no output text
at all. -/
def command (indent : String) (interface : String) (optional : Bool)
    (mapping : Json) : Except PyErr String :=
  match parse_intent indent with
  | none => Except.error PyErr.badParameter
  | some (count, ch) =>
    match search_typed_properties interface mapping [] with
    | Except.error e => Except.error e
    | Except.ok (tps, _, _) =>
      Except.ok (print_typed_properties tps
        (String.mk (List.replicate count ch)) optional)

/-- The interface names of the rendered blocks, in rendered order. -/
def interfaceBlockNames (tps : List TypedProperty) : List String :=
  (groupConsec (List.insertionSort tpOrder tps)).map Prod.fst

/-- Numeric value of a decimal digit string (proof helper for the
injectivity of `natRepr`). -/
def digitsVal (l : List Char) : Nat :=
  l.foldl (fun acc c => acc * 10 + (c.toNat - 48)) 0

/-! ### Decimal representation -/

theorem digitChar_toNat : ∀ d : Nat, d < 10 → (digitChar d).toNat = 48 + d := by decide

theorem natDigitsAux_val : ∀ fuel n, n ≤ fuel → digitsVal (natDigitsAux n fuel) = n := by
  intro fuel
  induction fuel with
  | zero =>
    intro n hn
    have : n = 0 := Nat.le_zero.mp hn
    subst this
    rfl
  | succ fuel ih =>
    intro n hn
    by_cases h0 : n = 0
    · subst h0; rfl
    · have hlt : n / 10 < n := Nat.div_lt_self (Nat.pos_of_ne_zero h0) (by norm_num)
      have hdiv : n / 10 ≤ fuel := by omega
      have hmod : n % 10 < 10 := Nat.mod_lt _ (by norm_num)
      show digitsVal (natDigitsAux n (fuel + 1)) = n
      rw [natDigitsAux, if_neg h0]
      unfold digitsVal
      rw [List.foldl_append]
      have hv := ih (n / 10) hdiv
      unfold digitsVal at hv
      rw [hv]
      simp only [List.foldl_cons, List.foldl_nil]
      rw [digitChar_toNat (n % 10) hmod]
      omega

theorem natRepr_val (n : Nat) : digitsVal (natRepr n).data = n := by
  by_cases h0 : n = 0
  · subst h0; rfl
  · rw [natRepr, if_neg h0]
    exact natDigitsAux_val n n le_rfl

theorem natRepr_inj : Function.Injective natRepr := by
  intro a b h
  have := congrArg (fun s => digitsVal s.data) h
  simpa only [natRepr_val] using this

theorem string_data_append (a b : String) : (a ++ b).data = a.data ++ b.data := rfl

theorem string_length_append (a b : String) : (a ++ b).length = a.length + b.length := by
  show (a ++ b).data.length = a.data.length + b.data.length
  rw [string_data_append, List.length_append]

/-! ### The name allocator -/

theorem candidateName_inj (interface : String) :
    Function.Injective (candidateName interface) := by
  intro a b h
  match a, b with
  | 0, 0 => rfl
  | 0, k + 1 =>
    exfalso
    have hlen := congrArg String.length h
    simp only [candidateName, string_length_append] at hlen
    have h1 : ("_" : String).length = 1 := rfl
    omega
  | j + 1, 0 =>
    exfalso
    have hlen := congrArg String.length h
    simp only [candidateName, string_length_append] at hlen
    have h1 : ("_" : String).length = 1 := rfl
    omega
  | j + 1, k + 1 =>
    simp only [candidateName, string_data_append] at h
    have hd := congrArg String.data h
    simp only [string_data_append, List.append_assoc] at hd
    have htail := List.append_cancel_left hd
    have htail2 := List.append_cancel_left htail
    have : natRepr (j + 1) = natRepr (k + 1) := by
      apply congrArg String.mk at htail2
      simpa using htail2
    have := natRepr_inj this
    omega

theorem candidateFree_exists (interface : String) (used : List String) :
    ∃ n, n ≤ used.length ∧ candidateName interface n ∉ used := by
  by_contra hcon
  push_neg at hcon
  classical
  have hsub : (Finset.range (used.length + 1)).image (candidateName interface)
      ⊆ used.toFinset := by
    intro x hx
    rcases Finset.mem_image.mp hx with ⟨m, hm, rfl⟩
    have hmle : m ≤ used.length := by
      have := Finset.mem_range.mp hm; omega
    exact List.mem_toFinset.mpr (hcon m hmle)
  have hcard : ((Finset.range (used.length + 1)).image (candidateName interface)).card
      = used.length + 1 := by
    rw [Finset.card_image_of_injective _ (candidateName_inj interface),
      Finset.card_range]
  have hle := Finset.card_le_card hsub
  have := List.toFinset_card_le (l := used)
  omega

theorem firstFreeAux_spec (interface : String) (used : List String) :
    ∀ fuel start,
      (∃ m, start ≤ m ∧ m < start + fuel ∧ candidateName interface m ∉ used) →
      candidateName interface (firstFreeAux interface used start fuel) ∉ used
      ∧ start ≤ firstFreeAux interface used start fuel
      ∧ ∀ m, start ≤ m → m < firstFreeAux interface used start fuel →
          candidateName interface m ∈ used := by
  intro fuel
  induction fuel with
  | zero =>
    intro start ⟨m, hm1, hm2, _⟩
    omega
  | succ fuel ih =>
    intro start hex
    by_cases hmem : candidateName interface start ∈ used
    · have hex' : ∃ m, start + 1 ≤ m ∧ m < start + 1 + fuel
          ∧ candidateName interface m ∉ used := by
        rcases hex with ⟨m, hm1, hm2, hm3⟩
        refine ⟨m, ?_, by omega, hm3⟩
        rcases Nat.eq_or_lt_of_le hm1 with heq | hlt
        · exact absurd hmem (heq ▸ hm3)
        · omega
      have hrec := ih (start + 1) hex'
      have hunf : firstFreeAux interface used start (fuel + 1)
          = firstFreeAux interface used (start + 1) fuel := by
        rw [firstFreeAux, if_pos hmem]
      refine ⟨hunf ▸ hrec.1, by omega, ?_⟩
      intro m hm1 hm2
      rw [hunf] at hm2
      rcases Nat.eq_or_lt_of_le hm1 with heq | hlt
      · exact heq ▸ hmem
      · exact hrec.2.2 m (by omega) hm2
    · have hunf : firstFreeAux interface used start (fuel + 1) = start := by
        rw [firstFreeAux, if_neg hmem]
      rw [hunf]
      exact ⟨hmem, le_rfl, fun m hm1 hm2 => by omega⟩

theorem new_interface_name_least (interface : String) (used : List String) :
    candidateName interface (firstFreeAux interface used 0 (used.length + 1)) ∉ used
    ∧ ∀ m, m < firstFreeAux interface used 0 (used.length + 1) →
        candidateName interface m ∈ used := by
  rcases candidateFree_exists interface used with ⟨m, hm, hfree⟩
  have h := firstFreeAux_spec interface used (used.length + 1) 0
    ⟨m, Nat.zero_le m, by omega, hfree⟩
  exact ⟨h.1, fun k hk => h.2.2 k (Nat.zero_le k) hk⟩

theorem new_interface_name_not_mem (interface : String) (used : List String) :
    (new_interface_name interface used).fst ∉ used :=
  (new_interface_name_least interface used).1

theorem new_interface_name_snd (interface : String) (used : List String) :
    (new_interface_name interface used).snd
      = (new_interface_name interface used).fst :: used := rfl

theorem allocate_seq_nodup : ∀ (cands used : List String),
    (allocate_seq cands used).Nodup
    ∧ ∀ x ∈ allocate_seq cands used, x ∉ used := by
  intro cands
  induction cands with
  | nil => intro used; exact ⟨List.nodup_nil, by intro x hx; cases hx⟩
  | cons c cs ih =>
    intro used
    have hrec := ih (new_interface_name c used).snd
    constructor
    · refine List.nodup_cons.mpr ⟨?_, hrec.1⟩
      intro hmem
      have := hrec.2 _ hmem
      rw [new_interface_name_snd] at this
      exact this (List.mem_cons_self _ _)
    · intro x hx
      rcases List.mem_cons.mp hx with rfl | hx'
      · exact new_interface_name_not_mem c used
      · have := hrec.2 _ hx'
        rw [new_interface_name_snd] at this
        exact fun hxu => this (List.mem_cons_of_mem _ hxu)

/-- C1: if the candidate is not in the used set it is returned unchanged;
otherwise `candidate_1`, `candidate_2`, ... are probed in increasing integer
order and the first suffixed candidate not in the set is returned; the
returned name is added to the set before returning; and over any sequence of
allocation calls threaded through one used-name set, the returned names are
pairwise distinct. -/
theorem new_interface_name_allocator_spec (interface : String) (used : List String)
    (cands : List String) :
    ((new_interface_name interface used).fst ∉ used)
    ∧ (interface ∉ used → (new_interface_name interface used).fst = interface)
    ∧ (interface ∈ used →
        ∃ n, 1 ≤ n
          ∧ (new_interface_name interface used).fst = candidateName interface n
          ∧ ∀ m, 1 ≤ m → m < n → candidateName interface m ∈ used)
    ∧ ((new_interface_name interface used).snd
        = (new_interface_name interface used).fst :: used)
    ∧ (allocate_seq cands used).Nodup := by
  have hleast := new_interface_name_least interface used
  refine ⟨hleast.1, ?_, ?_, rfl, (allocate_seq_nodup cands used).1⟩
  · intro hni
    rcases Nat.eq_zero_or_pos (firstFreeAux interface used 0 (used.length + 1))
      with h0 | hpos
    · show candidateName interface _ = interface
      rw [h0]
      rfl
    · exact absurd (hleast.2 0 hpos) hni
  · intro hmem
    refine ⟨firstFreeAux interface used 0 (used.length + 1), ?_, rfl, ?_⟩
    · rcases Nat.eq_zero_or_pos (firstFreeAux interface used 0 (used.length + 1))
        with h0 | hpos
      · exfalso
        have : candidateName interface 0 ∈ used := hmem
        exact (h0 ▸ hleast.1) this
      · omega
    · intro m _ hm2
      exact hleast.2 m hm2

theorem new_interface_name_allocator_spec_witness :
    "hello" ∈ ["hello", "hello_1", "hello_2"]
    ∧ (∃ n, 1 ≤ n
        ∧ (new_interface_name "hello" ["hello", "hello_1", "hello_2"]).fst
            = candidateName "hello" n
        ∧ ∀ m, 1 ≤ m → m < n
            → candidateName "hello" m ∈ ["hello", "hello_1", "hello_2"])
    ∧ (new_interface_name "hello" ["hello", "hello_1", "hello_2"]).fst = "hello_3"
    ∧ (allocate_seq ["a", "a", "a"] []).Nodup :=
  ⟨by decide,
   (new_interface_name_allocator_spec "hello" ["hello", "hello_1", "hello_2"]
      ["a", "a", "a"]).2.2.1 (by decide),
   by decide,
   (new_interface_name_allocator_spec "hello" ["hello", "hello_1", "hello_2"]
      ["a", "a", "a"]).2.2.2.2⟩

/-! ### The identifier normalizer -/

theorem nameStart_imp_rest (c : Char) :
    isNameStartChar c = true → isNameRestChar c = true := by
  unfold isNameStartChar isNameRestChar
  intro h
  rcases Bool.or_eq_true_iff.mp h with h' | h'
  · exact Bool.or_eq_true_iff.mpr (Or.inl (Bool.or_eq_true_iff.mpr (Or.inl h')))
  · exact Bool.or_eq_true_iff.mpr (Or.inr h')

theorem not_invalid_imp_start (c : Char) :
    isNameInvalidChar c = false → isNameStartChar c = true := by
  unfold isNameInvalidChar isNameStartChar
  intro h
  cases hb : (isWordChar c || c == '$') with
  | true => rfl
  | false => rw [hb] at h; simp at h

theorem isInterfaceName_mk (l : List Char) (hne : l ≠ [])
    (hall : ∀ c ∈ l, isNameStartChar c = true) :
    isInterfaceName (String.mk l) = true := by
  cases l with
  | nil => exact absurd rfl hne
  | cons c cs =>
    show (isNameStartChar c && cs.all isNameRestChar) = true
    refine Bool.and_eq_true_iff.mpr ⟨hall c (List.mem_cons_self c cs), ?_⟩
    refine List.all_eq_true.mpr fun x hx => ?_
    exact nameStart_imp_rest x (hall x (List.mem_cons_of_mem c hx))

theorem keyword_underscore_ok :
    ∀ k ∈ _RESERVED_KEYWORDS,
      isInterfaceName (k ++ "_") = true ∧ (k ++ "_") ∉ _RESERVED_KEYWORDS := by
  decide

theorem keyword_normalize :
    ∀ k ∈ _RESERVED_KEYWORDS, normalize_interface_name k = k ++ "_" := by
  decide

theorem normalize_valid_not_kw (name : String) :
    isInterfaceName (normalize_interface_name name) = true
    ∧ normalize_interface_name name ∉ _RESERVED_KEYWORDS := by
  unfold normalize_interface_name
  cases hd : name.data with
  | nil => exact ⟨by decide, by decide⟩
  | cons c cs =>
    simp only []
    set chars0 := if isNameStartChar c then c :: cs else replaceFirst c (c :: cs)
      with hchars0
    set l := chars0.map (fun x => if isNameInvalidChar x then '_' else x) with hl
    have hne : chars0 ≠ [] := by
      rw [hchars0]
      by_cases hstart : isNameStartChar c
      · simp [hstart]
      · simp only [hstart, if_false, Bool.false_eq_true]
        unfold replaceFirst
        simp
    have hlne : l ≠ [] := by
      rw [hl]
      intro hcon
      exact hne (List.map_eq_nil_iff.mp hcon)
    have hvalid : isInterfaceName (String.mk l) = true := by
      refine isInterfaceName_mk l hlne fun x hx => ?_
      rw [hl] at hx
      rcases List.mem_map.mp hx with ⟨y, _, rfl⟩
      by_cases hy : isNameInvalidChar y = true
      · simp only [hy, if_true]
        decide
      · have hy' := Bool.not_eq_true _ |>.mp hy
        simp only [hy', if_false, Bool.false_eq_true]
        exact not_invalid_imp_start y hy'
    by_cases hkw : String.mk l ∈ _RESERVED_KEYWORDS
    · rw [if_pos hkw]
      exact ⟨(keyword_underscore_ok _ hkw).1, (keyword_underscore_ok _ hkw).2⟩
    · rw [if_neg hkw]
      exact ⟨hvalid, hkw⟩

/-- C3: `normalize_interface_name` always returns a nonempty string fully
matching the interface-name grammar `(\w|\$)(\w|\d|\$)*` that is not a
reserved keyword; a reserved-keyword input comes back with exactly one
trailing underscore appended. -/
theorem normalize_interface_name_spec (name : String) :
    isInterfaceName (normalize_interface_name name) = true
    ∧ normalize_interface_name name ∉ _RESERVED_KEYWORDS
    ∧ (name ∈ _RESERVED_KEYWORDS → normalize_interface_name name = name ++ "_") :=
  ⟨(normalize_valid_not_kw name).1, (normalize_valid_not_kw name).2,
   fun hk => keyword_normalize name hk⟩

theorem normalize_interface_name_spec_witness :
    "default" ∈ _RESERVED_KEYWORDS
    ∧ isInterfaceName (normalize_interface_name "default") = true
    ∧ normalize_interface_name "default" ∉ _RESERVED_KEYWORDS
    ∧ normalize_interface_name "default" = "default" ++ "_" :=
  ⟨by decide, (normalize_interface_name_spec "default").1,
   (normalize_interface_name_spec "default").2.1,
   (normalize_interface_name_spec "default").2.2 (by decide)⟩

/-! ### The nested-name separator -/

theorem rest_imp_start (c : Char) :
    isNameRestChar c = true → isNameStartChar c = true := by
  unfold isNameRestChar isNameStartChar isWordChar
  intro h
  simp only [Bool.or_eq_true] at h ⊢
  tauto

theorem kw_no_dollar : ∀ k ∈ _RESERVED_KEYWORDS, '$' ∉ k.data := by decide

theorem string_mk_data (s : String) : String.mk s.data = s := rfl

theorem join_data (i p : String) : (i ++ "$" ++ p).data = i.data ++ '$' :: p.data := by
  rw [string_data_append, string_data_append, List.append_assoc]
  rfl

theorem isInterfaceName_parts (i : String) (c : Char) (cs : List Char)
    (hi : isInterfaceName i = true) (hd : i.data = c :: cs) :
    isNameStartChar c = true ∧ cs.all isNameRestChar = true := by
  unfold isInterfaceName at hi
  rw [hd] at hi
  exact Bool.and_eq_true_iff.mp hi

theorem invalid_eq_not_start (c : Char) : isNameInvalidChar c = !(isNameStartChar c) := rfl

theorem normalize_join_id (i p : String) (hi : isInterfaceName i = true)
    (hp : ∀ c ∈ p.data, isNameStartChar c = true) :
    normalize_interface_name (i ++ "$" ++ p) = i ++ "$" ++ p := by
  cases hi0 : i.data with
  | nil =>
    exfalso
    unfold isInterfaceName at hi
    rw [hi0] at hi
    exact Bool.false_ne_true hi
  | cons c cs =>
    have hparts := isInterfaceName_parts i c cs hi hi0
    have hall : ∀ x ∈ c :: (cs ++ '$' :: p.data), isNameStartChar x = true := by
      intro x hx
      rcases List.mem_cons.mp hx with rfl | hx'
      · exact hparts.1
      · rcases List.mem_append.mp hx' with hx'' | hx'' 
        · exact rest_imp_start x (List.all_eq_true.mp hparts.2 x hx'')
        · rcases List.mem_cons.mp hx'' with rfl | hx'''
          · decide
          · exact hp x hx'''
    have hjd : (i ++ "$" ++ p).data = c :: (cs ++ '$' :: p.data) := by
      rw [join_data, hi0]
      rfl
    have hmapgen : ∀ l : List Char, (∀ x ∈ l, isNameStartChar x = true) →
        l.map (fun x => if isNameInvalidChar x then '_' else x) = l := by
      intro l hl
      induction l with
      | nil => rfl
      | cons a as iha =>
        rw [List.map_cons, iha (fun x hx => hl x (List.mem_cons_of_mem _ hx))]
        have ha := hl a (List.mem_cons_self _ _)
        rw [invalid_eq_not_start, ha]
        rfl
    unfold normalize_interface_name
    rw [hjd]
    simp only [hall c (List.mem_cons_self _ _), if_true]
    rw [hmapgen _ hall]
    have hnkw : String.mk (c :: (cs ++ '$' :: p.data)) ∉ _RESERVED_KEYWORDS := by
      intro hmem
      have hdollar : '$' ∈ (String.mk (c :: (cs ++ '$' :: p.data))).data := by
        show '$' ∈ c :: (cs ++ '$' :: p.data)
        exact List.mem_cons_of_mem _ (List.mem_append.mpr
          (Or.inr (List.mem_cons_self _ _)))
      exact kw_no_dollar _ hmem hdollar
    rw [if_neg hnkw, ← hjd, string_mk_data]

/-- C5 (amended): the Walker's separator is `'$'`, which is itself a valid
identifier character, so the joined synthetic candidate of a valid interface
name and a valid field name passes normalization unchanged and can therefore
collide with a real field-derived name; uniqueness is restored only by the
Name Allocator, whose result is always fresh with respect to the used set. -/
theorem nested_name_separator_spec (i p : String) (u : List String)
    (hi : isInterfaceName i = true) (hp : ∀ c ∈ p.data, isNameStartChar c = true) :
    isNameStartChar '$' = true
    ∧ normalize_interface_name (i ++ "$" ++ p) = i ++ "$" ++ p
    ∧ (new_interface_name (normalize_interface_name (i ++ "$" ++ p)) u).fst ∉ u :=
  ⟨by decide, normalize_join_id i p hi hp, new_interface_name_not_mem _ _⟩

theorem nested_name_separator_spec_witness :
    isInterfaceName "A" = true
    ∧ (∀ c ∈ ("b" : String).data, isNameStartChar c = true)
    ∧ normalize_interface_name ("A" ++ "$" ++ "b") = "A" ++ "$" ++ "b"
    ∧ (new_interface_name (normalize_interface_name ("A" ++ "$" ++ "b")) ["A$b"]).fst
        ∉ ["A$b"] :=
  ⟨by decide, by decide,
   (nested_name_separator_spec "A" "b" ["A$b"] (by decide) (by decide)).2.1,
   (nested_name_separator_spec "A" "b" ["A$b"] (by decide) (by decide)).2.2⟩

/-- C5 counterexample: the separator `'$'` IS a valid identifier character
(it matches `(\w|\$)` and is not matched by `_INTERFACE_NAME_INVALID`), and
normalization preserves it, so the synthetic candidate `A$b` for field `b`
of interface `A` is exactly the normalization of a real field-derived name
`A$b`; walking such a field with `A$b` already used yields the suffixed
inner name `A$b_1`, demonstrating the collision the claim rules out. -/
theorem nested_name_separator_counterexample :
    isNameStartChar '$' = true
    ∧ isNameInvalidChar '$' = false
    ∧ normalize_interface_name "A$b" = "A$b"
    ∧ genFields "A" [("b", Json.obj [("properties", Json.obj [])])] ["A$b"]
        = Except.ok ([⟨"A", "b", "A$b_1 | A$b_1[]", "\x7b\"properties\": \x7b\x7d\x7d"⟩],
            ["A$b_1", "A$b"], []) := by
  refine ⟨by decide, by decide, by decide, ?_⟩
  have h1 : normalize_interface_name "A$b" = "A$b" := rfl
  have h2 : new_interface_name "A$b" ["A$b"] = ("A$b_1", ["A$b_1", "A$b"]) := rfl
  have h3 : isInterfaceName "A$b_1" = true := rfl
  have h4 : dumps (Json.obj [("properties", Json.obj [])])
      = "\x7b\"properties\": \x7b\x7d\x7d" := by
    simp [dumps, dumpsObj, dumpString]
    decide
  simp [genFields, genLookup, generate_typed_properties, hasKey, lookupKey,
    h1, h2, h3, h4]

/-! ### Nested object fields -/

theorem genLookup_eq_generate (inner : String) (kvs : List (String × Json))
    (used : List String) (sub : Json) (h : lookupKey kvs "properties" = some sub) :
    genLookup inner kvs used = generate_typed_properties inner sub used := by
  induction kvs with
  | nil => simp [lookupKey] at h
  | cons kv rest ih =>
    obtain ⟨k, v⟩ := kv
    unfold genLookup
    by_cases hk : (k == "properties") = true
    · rw [if_pos hk]
      unfold lookupKey at h
      rw [if_pos hk] at h
      injection h with h'
      rw [h']
    · rw [if_neg hk]
      unfold lookupKey at h
      rw [if_neg hk] at h
      exact ih h

/-- C2: for a field whose definition carries a nested `properties` mapping,
the Walker allocates exactly one inner interface name (the normalized
`'{interface}${property}'` candidate, fresh with respect to the used set),
expands the nested subtree first under that name, and then emits exactly one
record in the current interface whose type expression is exactly
`'{inner} | {inner}[]'`. -/
theorem generate_nested_field_spec (interface p : String) (kvs : List (String × Json))
    (sub : Json) (rest : List (String × Json)) (used : List String)
    (hp : p ≠ "") (hlk : lookupKey kvs "properties" = some sub) :
    (new_interface_name (normalize_interface_name (interface ++ "$" ++ p)) used).fst ∉ used
    ∧ genFields interface ((p, Json.obj kvs) :: rest) used =
        match generate_typed_properties
            (new_interface_name (normalize_interface_name (interface ++ "$" ++ p)) used).fst
            sub
            (new_interface_name (normalize_interface_name (interface ++ "$" ++ p)) used).snd with
        | Except.error e => Except.error e
        | Except.ok (recs1, used1, warns1) =>
          match genFields interface rest used1 with
          | Except.error e => Except.error e
          | Except.ok (recs2, used2, warns2) =>
            Except.ok
              (recs1
                ++ ⟨interface, p,
                    (new_interface_name
                      (normalize_interface_name (interface ++ "$" ++ p)) used).fst
                    ++ " | "
                    ++ (new_interface_name
                      (normalize_interface_name (interface ++ "$" ++ p)) used).fst
                    ++ "[]",
                    dumps (Json.obj kvs)⟩ :: recs2,
               used2, warns1 ++ warns2) := by
  refine ⟨new_interface_name_not_mem _ _, ?_⟩
  have hbeq : (p == "") = false := beq_eq_false_iff_ne.mpr hp
  have hhk : hasKey kvs "properties" = true := by rw [hasKey, hlk]; rfl
  have hgl : ∀ i u, genLookup i kvs u = generate_typed_properties i sub u :=
    fun i u => genLookup_eq_generate i kvs u sub hlk
  conv_lhs => rw [genFields.eq_def]
  simp only [hbeq, Bool.false_eq_true, if_false, hhk, if_true, hgl]

theorem generate_nested_field_spec_witness :
    ("a" : String) ≠ ""
    ∧ lookupKey [("properties", Json.obj [])] "properties" = some (Json.obj [])
    ∧ genFields "Root" [("a", Json.obj [("properties", Json.obj [])])] []
        = Except.ok ([⟨"Root", "a", "Root$a | Root$a[]", "\x7b\"properties\": \x7b\x7d\x7d"⟩],
            ["Root$a"], []) := by
  refine ⟨by decide, rfl, ?_⟩
  have h := (generate_nested_field_spec "Root" "a" [("properties", Json.obj [])]
    (Json.obj []) [] [] (by decide) rfl).2
  rw [h]
  have h1 : normalize_interface_name "Root$a" = "Root$a" := rfl
  have h2 : new_interface_name "Root$a" [] = ("Root$a", ["Root$a"]) := rfl
  have h3 : isInterfaceName "Root$a" = true := rfl
  have h4 : dumps (Json.obj [("properties", Json.obj [])])
      = "\x7b\"properties\": \x7b\x7d\x7d" := by
    simp [dumps, dumpsObj, dumpString]
    decide
  simp [generate_typed_properties, genFields, h1, h2, h3, h4]

/-! ### Leaf fields -/

theorem leafRecord_unmapped (interface p s : String) (kvs : List (String × Json))
    (ht : lookupKey kvs "type" = some (Json.str s)) (hs : s ≠ "")
    (hun : typeMappingGet s = none) :
    leafRecord interface p kvs
      = Except.ok (some ⟨interface, p, "any", dumps (Json.obj kvs)⟩, some (Json.str s)) := by
  unfold leafRecord
  rw [ht]
  simp only [hun, Option.getD, jsonTruthy]
  rw [if_neg (by simp), if_pos (by simp [bne_iff_ne, hs])]

theorem leafRecord_notype (interface p : String) (kvs : List (String × Json))
    (ht : lookupKey kvs "type" = none) :
    leafRecord interface p kvs = Except.ok (none, none) := by
  unfold leafRecord
  rw [ht]
  rfl

theorem genFields_leaf (interface p : String) (kvs : List (String × Json))
    (rest : List (String × Json)) (used : List String)
    (hp : (p == "") = false) (hnp : hasKey kvs "properties" = false) :
    genFields interface ((p, Json.obj kvs) :: rest) used =
      match leafRecord interface p kvs with
      | Except.error e => Except.error e
      | Except.ok (orec, owarn) =>
        match genFields interface rest used with
        | Except.error e => Except.error e
        | Except.ok (recs, used2, warns) =>
          Except.ok (orec.toList ++ recs, used2, owarn.toList ++ warns) := by
  conv_lhs => rw [genFields.eq_def]
  simp only [hp, Bool.false_eq_true, if_false, hnp, if_true]

/-- C6 (amended): for an object-shaped leaf definition (no nested
`properties`): a declared type that is a nonempty string with no entry in
the Type Mapping Table yields exactly one record with the permissive
fallback type `any` and exactly one warning naming that type kind; an
absent `type` key yields no record and no warning.  (The original claim
fails for the empty-string type name, which is present yet silently
skipped; see the counterexample.) -/
theorem generate_leaf_field_spec (interface p s : String) (kvs : List (String × Json))
    (rest : List (String × Json)) (used : List String) (hp : p ≠ "")
    (hnp : hasKey kvs "properties" = false) :
    (lookupKey kvs "type" = some (Json.str s) → s ≠ "" → typeMappingGet s = none →
      genFields interface ((p, Json.obj kvs) :: rest) used =
        match genFields interface rest used with
        | Except.error e => Except.error e
        | Except.ok (recs, used2, warns) =>
          Except.ok (⟨interface, p, "any", dumps (Json.obj kvs)⟩ :: recs, used2,
            Json.str s :: warns))
    ∧ (lookupKey kvs "type" = none →
      genFields interface ((p, Json.obj kvs) :: rest) used
        = genFields interface rest used) := by
  have hbeq : (p == "") = false := beq_eq_false_iff_ne.mpr hp
  constructor
  · intro ht hs hun
    rw [genFields_leaf interface p kvs rest used hbeq hnp,
      leafRecord_unmapped interface p s kvs ht hs hun]
    cases genFields interface rest used with
    | error e => rfl
    | ok triple => rfl
  · intro ht
    rw [genFields_leaf interface p kvs rest used hbeq hnp,
      leafRecord_notype interface p kvs ht]
    cases hres : genFields interface rest used with
    | error e => rfl
    | ok triple =>
      obtain ⟨recs, used2, warns⟩ := triple
      rfl

theorem generate_leaf_field_spec_witness :
    ("f" : String) ≠ ""
    ∧ hasKey [("type", Json.str "wibble")] "properties" = false
    ∧ lookupKey [("type", Json.str "wibble")] "type" = some (Json.str "wibble")
    ∧ ("wibble" : String) ≠ ""
    ∧ typeMappingGet "wibble" = none
    ∧ genFields "Root" [("f", Json.obj [("type", Json.str "wibble")])] []
        = Except.ok ([⟨"Root", "f", "any", "\x7b\"type\": \"wibble\"\x7d"⟩], [],
            [Json.str "wibble"]) := by
  refine ⟨by decide, rfl, rfl, by decide, rfl, ?_⟩
  have h := (generate_leaf_field_spec "Root" "f" "wibble" [("type", Json.str "wibble")]
    [] [] (by decide) rfl).1 rfl (by decide) rfl
  rw [h]
  have h4 : dumps (Json.obj [("type", Json.str "wibble")])
      = "\x7b\"type\": \"wibble\"\x7d" := by
    simp [dumps, dumpsObj, dumpString]
    decide
  simp [genFields, h4]

/-- C6 counterexample: the definition `{"type": ""}` carries a primitive
type name (the empty string) that has no entry in the Type Mapping Table,
yet the Walker emits no record and no warning for it — contradicting the
claim that a present-but-unmapped type name always produces one `any`
record and one warning. -/
theorem generate_leaf_field_counterexample :
    lookupKey [("type", Json.str "")] "type" = some (Json.str "")
    ∧ typeMappingGet "" = none
    ∧ genFields "Root" [("f", Json.obj [("type", Json.str "")])] []
        = Except.ok ([], [], []) := by
  refine ⟨rfl, rfl, ?_⟩
  rw [genFields_leaf "Root" "f" [("type", Json.str "")] [] [] (by decide) rfl]
  have hlr : leafRecord "Root" "f" [("type", Json.str "")] = Except.ok (none, none) := by
    unfold leafRecord
    rfl
  rw [hlr]
  simp [genFields]

/-! ### The top-level search and the command entry point -/

theorem search_nonobj (root : String) (doc : Json) (u : List String)
    (hobj : ∀ entries, doc ≠ Json.obj entries) :
    search_typed_properties root doc u = Except.ok ([], u, []) := by
  cases doc with
  | obj entries => exact absurd rfl (hobj entries)
  | null => unfold search_typed_properties; rfl
  | bool b => unfold search_typed_properties; rfl
  | num n => unfold search_typed_properties; rfl
  | str s => unfold search_typed_properties; rfl
  | arr xs => unfold search_typed_properties; rfl

/-- C7 (amended): a document that is not an object at the top level is not
fatal: the traversal yields no records, the run completes successfully, and
the rendered output is the empty string.  (Only a document that fails to
parse at all aborts — inside `json.load`, before the core runs.  No partial
output is ever emitted on an error because the record stream is fully
consumed by `sorted` before anything is printed, which the `Except`-based
`command` embedding makes structural: an error result carries no output
text.) -/
theorem command_nonobject_spec (indentSpec root : String) (optional : Bool)
    (doc : Json) (count : Nat) (ch : Char)
    (hparse : parse_intent indentSpec = some (count, ch))
    (hobj : ∀ entries, doc ≠ Json.obj entries) :
    command indentSpec root optional doc = Except.ok "" := by
  unfold command
  simp only [hparse, search_nonobj root doc [] hobj]
  rfl

theorem command_nonobject_spec_witness :
    parse_intent "4w" = some (4, ' ')
    ∧ (∀ entries, Json.arr [Json.num 1] ≠ Json.obj entries)
    ∧ command "4w" "Root" false (Json.arr [Json.num 1]) = Except.ok "" :=
  ⟨rfl, fun _ h => Json.noConfusion h,
   command_nonobject_spec "4w" "Root" false (Json.arr [Json.num 1]) 4 ' ' rfl
     (fun _ h => Json.noConfusion h)⟩

/-- C7 counterexample: the parsed document `42` is not an object at the top
level, yet the run is NOT fatal — it completes successfully with empty
output (`Except.ok ""`), contradicting the claim that such input aborts. -/
theorem command_nonobject_counterexample :
    command "4w" "Root" false (Json.num 42) = Except.ok "" := by
  have hs : search_typed_properties "Root" (Json.num 42) [] = Except.ok ([], [], []) := by
    unfold search_typed_properties
    rfl
  unfold command
  simp only [show parse_intent "4w" = some (4, ' ') from rfl, hs]
  rfl

/-- C9: for a top-level object without a `properties` key, the search
descends into each value under that value's own key — the configured root
name argument is not consulted at all (first conjunct: the result is
independent of it; second conjunct: a singleton object delegates to the
search of its value under its own key) — while an object carrying a
`properties` key allocates the normalized root name and expands it there
(third conjunct). -/
theorem search_descent_spec :
    (∀ (t1 t2 : String) (entries : List (String × Json)) (u : List String),
      hasKey entries "properties" = false →
      search_typed_properties t1 (Json.obj entries) u
        = search_typed_properties t2 (Json.obj entries) u)
    ∧ (∀ (t k : String) (v : Json) (u : List String), (k == "properties") = false →
      search_typed_properties t (Json.obj [(k, v)]) u = search_typed_properties k v u)
    ∧ (∀ (t : String) (entries : List (String × Json)) (u : List String),
      hasKey entries "properties" = true →
      search_typed_properties t (Json.obj entries) u
        = genLookup (new_interface_name (normalize_interface_name t) u).fst entries
            (new_interface_name (normalize_interface_name t) u).snd) := by
  refine ⟨?_, ?_, ?_⟩
  · intro t1 t2 entries u hnk
    unfold search_typed_properties
    simp only [hnk, Bool.false_eq_true, if_false]
  · intro t k v u hk
    have hnk : hasKey [(k, v)] "properties" = false := by
      simp only [hasKey, lookupKey, hk, Bool.false_eq_true, if_false]
      rfl
    conv_lhs => rw [search_typed_properties.eq_def]
    simp only [hnk, Bool.false_eq_true, if_false]
    unfold searchFields
    cases hres : search_typed_properties k v u with
    | error e => rfl
    | ok triple =>
      obtain ⟨r1, u1, w1⟩ := triple
      unfold searchFields
      simp
  · intro t entries u hpk
    unfold search_typed_properties
    simp only [hpk, if_true]

theorem search_descent_spec_witness :
    hasKey [("a", Json.num 1)] "properties" = false
    ∧ search_typed_properties "X" (Json.obj [("a", Json.num 1)]) []
        = search_typed_properties "Y" (Json.obj [("a", Json.num 1)]) []
    ∧ (("a" : String) == "properties") = false
    ∧ search_typed_properties "T" (Json.obj [("a", Json.num 1)]) []
        = search_typed_properties "a" (Json.num 1) []
    ∧ hasKey [("properties", Json.obj [])] "properties" = true
    ∧ search_typed_properties "T" (Json.obj [("properties", Json.obj [])]) []
        = genLookup (new_interface_name (normalize_interface_name "T") []).fst
            [("properties", Json.obj [])]
            (new_interface_name (normalize_interface_name "T") []).snd :=
  ⟨rfl, search_descent_spec.1 "X" "Y" [("a", Json.num 1)] [] rfl, rfl,
   search_descent_spec.2.1 "T" "a" (Json.num 1) [] rfl, rfl,
   search_descent_spec.2.2 "T" [("properties", Json.obj [])] [] rfl⟩

/-! ### Interface-name validity is preserved by the allocator -/

theorem natDigitsAux_chars : ∀ fuel n c, c ∈ natDigitsAux n fuel →
    ∃ d, d < 10 ∧ c = digitChar d := by
  intro fuel
  induction fuel with
  | zero => intro n c hc; cases hc
  | succ fuel ih =>
    intro n c hc
    by_cases h0 : n = 0
    · rw [natDigitsAux, if_pos h0] at hc
      cases hc
    · rw [natDigitsAux, if_neg h0] at hc
      rcases List.mem_append.mp hc with h | h
      · exact ih (n / 10) c h
      · rw [List.mem_singleton.mp h]
        exact ⟨n % 10, Nat.mod_lt _ (by norm_num), rfl⟩

theorem digit_rest : ∀ d : Nat, d < 10 → isNameRestChar (digitChar d) = true := by decide

theorem natRepr_chars (n : Nat) : ∀ c ∈ (natRepr n).data, isNameRestChar c = true := by
  intro c hc
  by_cases h0 : n = 0
  · subst h0
    have hc0 : c ∈ ['0'] := by
      rw [show (natRepr 0).data = ['0'] from rfl] at hc
      exact hc
    rw [List.mem_singleton.mp hc0]
    decide
  · rw [natRepr, if_neg h0] at hc
    rcases natDigitsAux_chars n n c hc with ⟨d, hd, rfl⟩
    exact digit_rest d hd

theorem isInterfaceName_append_rest (a s : String) (ha : isInterfaceName a = true)
    (hs : ∀ c ∈ s.data, isNameRestChar c = true) : isInterfaceName (a ++ s) = true := by
  cases hd : a.data with
  | nil =>
    exfalso
    unfold isInterfaceName at ha
    rw [hd] at ha
    exact Bool.false_ne_true ha
  | cons c cs =>
    have hparts := isInterfaceName_parts a c cs ha hd
    have hdata : (a ++ s).data = c :: (cs ++ s.data) := by
      rw [string_data_append, hd]
      rfl
    unfold isInterfaceName
    rw [hdata]
    refine Bool.and_eq_true_iff.mpr ⟨hparts.1, ?_⟩
    refine List.all_eq_true.mpr fun x hx => ?_
    rcases List.mem_append.mp hx with h | h
    · exact List.all_eq_true.mp hparts.2 x h
    · exact hs x h

theorem candidateName_valid (i : String) (n : Nat) (h : isInterfaceName i = true) :
    isInterfaceName (candidateName i n) = true := by
  cases n with
  | zero => exact h
  | succ k =>
    show isInterfaceName (i ++ "_" ++ natRepr (k + 1)) = true
    refine isInterfaceName_append_rest _ _
      (isInterfaceName_append_rest i "_" h ?_) (natRepr_chars _)
    intro c hc
    have hc' : c = '_' := by simpa using hc
    rw [hc']
    decide

theorem new_interface_name_valid (i : String) (u : List String)
    (h : isInterfaceName i = true) :
    isInterfaceName (new_interface_name i u).fst = true :=
  candidateName_valid i _ h

theorem leafRecord_no_assert (i p : String) (kvs : List (String × Json)) :
    leafRecord i p kvs ≠ Except.error PyErr.assertionError := by
  intro hcon
  unfold leafRecord at hcon
  cases hlk : lookupKey kvs "type" with
  | none =>
    rw [hlk] at hcon
    simp at hcon
  | some v =>
    rw [hlk] at hcon
    cases v with
    | arr xs => exact PyErr.noConfusion (Except.error.inj hcon)
    | obj os => exact PyErr.noConfusion (Except.error.inj hcon)
    | str s =>
      rcases ite_eq_iff.mp hcon with ⟨_, h⟩ | ⟨_, hcon2⟩
      · cases h
      · rcases ite_eq_iff.mp hcon2 with ⟨_, h⟩ | ⟨_, h⟩ <;> cases h
    | null =>
      cases htr : jsonTruthy Json.null <;> simp [htr] at hcon
    | bool b =>
      cases htr : jsonTruthy (Json.bool b) <;> simp [htr] at hcon
    | num n =>
      cases htr : jsonTruthy (Json.num n) <;> simp [htr] at hcon

/-! ### One-step unfolding lemmas -/

theorem genFields_nil (i : String) (u : List String) :
    genFields i [] u = Except.ok ([], u, []) := by
  conv_lhs => rw [genFields.eq_def]

theorem genFields_skip (i p : String) (defn : Json) (rest : List (String × Json))
    (u : List String) (hp : (p == "") = true) :
    genFields i ((p, defn) :: rest) u = genFields i rest u := by
  conv_lhs => rw [genFields.eq_def]
  simp only [hp, if_true]

theorem genFields_nested_step (i p : String) (kvs rest : List (String × Json))
    (u : List String) (hp : (p == "") = false) (hhk : hasKey kvs "properties" = true) :
    genFields i ((p, Json.obj kvs) :: rest) u =
      match genLookup (new_interface_name (normalize_interface_name (i ++ "$" ++ p)) u).fst
          kvs (new_interface_name (normalize_interface_name (i ++ "$" ++ p)) u).snd with
      | Except.error e => Except.error e
      | Except.ok (recs1, used1, warns1) =>
        match genFields i rest used1 with
        | Except.error e => Except.error e
        | Except.ok (recs2, used2, warns2) =>
          Except.ok
            (recs1
              ++ ⟨i, p,
                  (new_interface_name (normalize_interface_name (i ++ "$" ++ p)) u).fst
                  ++ " | "
                  ++ (new_interface_name (normalize_interface_name (i ++ "$" ++ p)) u).fst
                  ++ "[]",
                  dumps (Json.obj kvs)⟩ :: recs2,
             used2, warns1 ++ warns2) := by
  conv_lhs => rw [genFields.eq_def]
  simp only [hp, Bool.false_eq_true, if_false, hhk, if_true]

theorem genFields_str (i p s : String) (rest : List (String × Json)) (u : List String)
    (hp : (p == "") = false) :
    genFields i ((p, Json.str s) :: rest) u =
      (if charsContain "properties".data s.data then Except.error PyErr.typeError
       else Except.error PyErr.attributeError) := by
  conv_lhs => rw [genFields.eq_def]
  simp only [hp, Bool.false_eq_true, if_false]

theorem genFields_arr (i p : String) (xs : List Json) (rest : List (String × Json))
    (u : List String) (hp : (p == "") = false) :
    genFields i ((p, Json.arr xs) :: rest) u =
      (if xs.any (fun x => match x with | Json.str t => t == "properties" | _ => false)
       then Except.error PyErr.typeError
       else Except.error PyErr.attributeError) := by
  conv_lhs => rw [genFields.eq_def]
  simp only [hp, Bool.false_eq_true, if_false]

theorem genLookup_cons (i k : String) (v : Json) (rest : List (String × Json))
    (u : List String) :
    genLookup i ((k, v) :: rest) u =
      if (k == "properties") = true then generate_typed_properties i v u
      else genLookup i rest u := by
  conv_lhs => rw [genLookup.eq_def]

theorem generate_obj (i : String) (entries : List (String × Json)) (u : List String)
    (hi : isInterfaceName i = true) :
    generate_typed_properties i (Json.obj entries) u = genFields i entries u := by
  unfold generate_typed_properties
  rw [if_pos hi]

theorem searchFields_nil (u : List String) :
    searchFields [] u = Except.ok ([], u, []) := by
  conv_lhs => rw [searchFields.eq_def]

theorem searchFields_cons (k : String) (v : Json) (rest : List (String × Json))
    (u : List String) :
    searchFields ((k, v) :: rest) u =
      match search_typed_properties k v u with
      | Except.error e => Except.error e
      | Except.ok (r1, u1, w1) =>
        match searchFields rest u1 with
        | Except.error e => Except.error e
        | Except.ok (r2, u2, w2) => Except.ok (r1 ++ r2, u2, w1 ++ w2) := by
  conv_lhs => rw [searchFields.eq_def]

theorem search_obj_props (t : String) (entries : List (String × Json)) (u : List String)
    (h : hasKey entries "properties" = true) :
    search_typed_properties t (Json.obj entries) u
      = genLookup (new_interface_name (normalize_interface_name t) u).fst entries
          (new_interface_name (normalize_interface_name t) u).snd := by
  unfold search_typed_properties
  simp only [h, if_true]

theorem search_obj_noprops (t : String) (entries : List (String × Json)) (u : List String)
    (h : hasKey entries "properties" = false) :
    search_typed_properties t (Json.obj entries) u = searchFields entries u := by
  unfold search_typed_properties
  simp only [h, Bool.false_eq_true, if_false]

/-! ### The entry assertion never fires below the search -/

theorem gen_no_assert : ∀ N : Nat,
    (∀ (i : String) (props : Json) (u : List String), sizeOf props ≤ N →
      isInterfaceName i = true →
      generate_typed_properties i props u ≠ Except.error PyErr.assertionError)
    ∧ (∀ (i : String) (entries : List (String × Json)) (u : List String),
      sizeOf entries ≤ N → isInterfaceName i = true →
      genFields i entries u ≠ Except.error PyErr.assertionError)
    ∧ (∀ (i : String) (kvs : List (String × Json)) (u : List String),
      sizeOf kvs ≤ N → isInterfaceName i = true →
      genLookup i kvs u ≠ Except.error PyErr.assertionError) := by
  intro N
  induction N using Nat.strong_induction_on with
  | _ N ih =>
    refine ⟨?_, ?_, ?_⟩
    · intro i props u hsz hi hcon
      cases props with
      | obj entries =>
        rw [generate_obj i entries u hi] at hcon
        have hlt : sizeOf entries < N := by
          have hspec : sizeOf (Json.obj entries) = 1 + sizeOf entries := by simp
          omega
        exact (ih (sizeOf entries) hlt).2.1 i entries u le_rfl hi hcon
      | null =>
        rw [generate_typed_properties.eq_def, if_pos hi] at hcon
        exact PyErr.noConfusion (Except.error.inj hcon)
      | bool b =>
        rw [generate_typed_properties.eq_def, if_pos hi] at hcon
        exact PyErr.noConfusion (Except.error.inj hcon)
      | num n =>
        rw [generate_typed_properties.eq_def, if_pos hi] at hcon
        exact PyErr.noConfusion (Except.error.inj hcon)
      | str s =>
        rw [generate_typed_properties.eq_def, if_pos hi] at hcon
        exact PyErr.noConfusion (Except.error.inj hcon)
      | arr xs =>
        rw [generate_typed_properties.eq_def, if_pos hi] at hcon
        exact PyErr.noConfusion (Except.error.inj hcon)
    · intro i entries u hsz hi hcon
      cases entries with
      | nil =>
        rw [genFields_nil] at hcon
        exact Except.noConfusion hcon
      | cons e rest =>
        obtain ⟨p, defn⟩ := e
        have hrest : sizeOf rest < N := by
          have hspec : sizeOf ((p, defn) :: rest)
              = 1 + (1 + sizeOf p + sizeOf defn) + sizeOf rest := by simp
          have hp1 : 1 ≤ sizeOf defn := by
            cases defn <;> simp
          omega
        by_cases hp : (p == "") = true
        · rw [genFields_skip i p defn rest u hp] at hcon
          exact (ih (sizeOf rest) hrest).2.1 i rest u le_rfl hi hcon
        · have hp' : (p == "") = false := Bool.not_eq_true _ |>.mp hp
          cases defn with
          | obj kvs =>
            have hkvs : sizeOf kvs < N := by
              have hspec : sizeOf ((p, Json.obj kvs) :: rest)
                  = 1 + (1 + sizeOf p + (1 + sizeOf kvs)) + sizeOf rest := by simp
              omega
            by_cases hhk : hasKey kvs "properties" = true
            · rw [genFields_nested_step i p kvs rest u hp' hhk] at hcon
              have hvalid : isInterfaceName
                  (new_interface_name (normalize_interface_name (i ++ "$" ++ p)) u).fst
                  = true :=
                new_interface_name_valid _ _ (normalize_valid_not_kw _).1
              cases hres : genLookup
                  (new_interface_name (normalize_interface_name (i ++ "$" ++ p)) u).fst
                  kvs (new_interface_name (normalize_interface_name (i ++ "$" ++ p)) u).snd with
              | error e1 =>
                rw [hres] at hcon
                have he1 : e1 = PyErr.assertionError := Except.error.inj hcon
                rw [he1] at hres
                exact (ih (sizeOf kvs) hkvs).2.2 _ kvs _ le_rfl hvalid hres
              | ok tr1 =>
                obtain ⟨recs1, used1, warns1⟩ := tr1
                rw [hres] at hcon
                simp only [] at hcon
                cases hres2 : genFields i rest used1 with
                | error e2 =>
                  rw [hres2] at hcon
                  have he2 : e2 = PyErr.assertionError := Except.error.inj hcon
                  rw [he2] at hres2
                  exact (ih (sizeOf rest) hrest).2.1 i rest used1 le_rfl hi hres2
                | ok tr2 =>
                  obtain ⟨recs2, used2, warns2⟩ := tr2
                  rw [hres2] at hcon
                  exact Except.noConfusion hcon
            · have hhk' : hasKey kvs "properties" = false := Bool.not_eq_true _ |>.mp hhk
              rw [genFields_leaf i p kvs rest u hp' hhk'] at hcon
              cases hres : leafRecord i p kvs with
              | error e1 =>
                rw [hres] at hcon
                have he1 : e1 = PyErr.assertionError := Except.error.inj hcon
                rw [he1] at hres
                exact leafRecord_no_assert i p kvs hres
              | ok pr =>
                obtain ⟨orec, owarn⟩ := pr
                rw [hres] at hcon
                cases hres2 : genFields i rest u with
                | error e2 =>
                  rw [hres2] at hcon
                  have he2 : e2 = PyErr.assertionError := Except.error.inj hcon
                  rw [he2] at hres2
                  exact (ih (sizeOf rest) hrest).2.1 i rest u le_rfl hi hres2
                | ok tr2 =>
                  obtain ⟨recs2, used2, warns2⟩ := tr2
                  rw [hres2] at hcon
                  exact Except.noConfusion hcon
          | str s =>
            rw [genFields_str i p s rest u hp'] at hcon
            rcases ite_eq_iff.mp hcon with ⟨_, h⟩ | ⟨_, h⟩ <;>
              exact PyErr.noConfusion (Except.error.inj h)
          | arr xs =>
            rw [genFields_arr i p xs rest u hp'] at hcon
            rcases ite_eq_iff.mp hcon with ⟨_, h⟩ | ⟨_, h⟩ <;>
              exact PyErr.noConfusion (Except.error.inj h)
          | null =>
            rw [genFields.eq_def] at hcon
            simp only [hp', Bool.false_eq_true, if_false] at hcon
            exact PyErr.noConfusion (Except.error.inj hcon)
          | bool b =>
            rw [genFields.eq_def] at hcon
            simp only [hp', Bool.false_eq_true, if_false] at hcon
            exact PyErr.noConfusion (Except.error.inj hcon)
          | num n =>
            rw [genFields.eq_def] at hcon
            simp only [hp', Bool.false_eq_true, if_false] at hcon
            exact PyErr.noConfusion (Except.error.inj hcon)
    · intro i kvs u hsz hi hcon
      cases kvs with
      | nil =>
        rw [genLookup.eq_def] at hcon
        exact PyErr.noConfusion (Except.error.inj hcon)
      | cons e rest =>
        obtain ⟨k, v⟩ := e
        rw [genLookup_cons i k v rest u] at hcon
        have hspec : sizeOf ((k, v) :: rest)
            = 1 + (1 + sizeOf k + sizeOf v) + sizeOf rest := by simp
        have hv : sizeOf v < N := by omega
        have hrest : sizeOf rest < N := by omega
        by_cases hk : (k == "properties") = true
        · rw [if_pos hk] at hcon
          exact (ih (sizeOf v) hv).1 i v u le_rfl hi hcon
        · rw [if_neg hk] at hcon
          exact (ih (sizeOf rest) hrest).2.2 i rest u le_rfl hi hcon

theorem search_no_assert_aux : ∀ N : Nat,
    (∀ (t : String) (m : Json) (u : List String), sizeOf m ≤ N →
      search_typed_properties t m u ≠ Except.error PyErr.assertionError)
    ∧ (∀ (entries : List (String × Json)) (u : List String), sizeOf entries ≤ N →
      searchFields entries u ≠ Except.error PyErr.assertionError) := by
  intro N
  induction N using Nat.strong_induction_on with
  | _ N ih =>
    constructor
    · intro t m u hsz hcon
      cases m with
      | obj entries =>
        by_cases hhk : hasKey entries "properties" = true
        · rw [search_obj_props t entries u hhk] at hcon
          have hvalid : isInterfaceName
              (new_interface_name (normalize_interface_name t) u).fst = true :=
            new_interface_name_valid _ _ (normalize_valid_not_kw t).1
          exact (gen_no_assert (sizeOf entries)).2.2 _ entries _ le_rfl hvalid hcon
        · have hhk' : hasKey entries "properties" = false := Bool.not_eq_true _ |>.mp hhk
          rw [search_obj_noprops t entries u hhk'] at hcon
          have hlt : sizeOf entries < N := by
            have hspec : sizeOf (Json.obj entries) = 1 + sizeOf entries := by simp
            omega
          exact (ih (sizeOf entries) hlt).2 entries u le_rfl hcon
      | null =>
        rw [search_nonobj t Json.null u (fun e h => Json.noConfusion h)] at hcon
        exact Except.noConfusion hcon
      | bool b =>
        rw [search_nonobj t (Json.bool b) u (fun e h => Json.noConfusion h)] at hcon
        exact Except.noConfusion hcon
      | num n =>
        rw [search_nonobj t (Json.num n) u (fun e h => Json.noConfusion h)] at hcon
        exact Except.noConfusion hcon
      | str s =>
        rw [search_nonobj t (Json.str s) u (fun e h => Json.noConfusion h)] at hcon
        exact Except.noConfusion hcon
      | arr xs =>
        rw [search_nonobj t (Json.arr xs) u (fun e h => Json.noConfusion h)] at hcon
        exact Except.noConfusion hcon
    · intro entries u hsz hcon
      cases entries with
      | nil =>
        rw [searchFields_nil] at hcon
        exact Except.noConfusion hcon
      | cons e rest =>
        obtain ⟨k, v⟩ := e
        rw [searchFields_cons k v rest u] at hcon
        have hspec : sizeOf ((k, v) :: rest)
            = 1 + (1 + sizeOf k + sizeOf v) + sizeOf rest := by simp
        have hv : sizeOf v < N := by omega
        have hrest : sizeOf rest < N := by omega
        cases hres : search_typed_properties k v u with
        | error e1 =>
          rw [hres] at hcon
          have he1 : e1 = PyErr.assertionError := Except.error.inj hcon
          rw [he1] at hres
          exact (ih (sizeOf v) hv).1 k v u le_rfl hres
        | ok tr1 =>
          obtain ⟨r1, u1, w1⟩ := tr1
          rw [hres] at hcon
          simp only [] at hcon
          cases hres2 : searchFields rest u1 with
          | error e2 =>
            rw [hres2] at hcon
            have he2 : e2 = PyErr.assertionError := Except.error.inj hcon
            rw [he2] at hres2
            exact (ih (sizeOf rest) hrest).2 rest u1 le_rfl hres2
          | ok tr2 =>
            obtain ⟨r2, u2, w2⟩ := tr2
            rw [hres2] at hcon
            exact Except.noConfusion hcon

/-- C10: every invocation of `generate_typed_properties` reached through
`search_typed_properties` (directly or through the Walker's own recursion)
receives an interface argument fully matching `_INTERFACE_NAME` — every such
name is produced by `normalize_interface_name` (whose output matches the
pattern) possibly extended by `new_interface_name` with a `_N` suffix (which
preserves the match) — so the entry assertion never fails: no run of the
search ever results in an `AssertionError`. -/
theorem search_never_assertion_error (type : String) (mapping : Json)
    (used : List String) :
    search_typed_properties type mapping used ≠ Except.error PyErr.assertionError :=
  (search_no_assert_aux (sizeOf mapping)).1 type mapping used le_rfl

/-! ### Rendered interface blocks -/

theorem groupConsec_ne_nil (x : TypedProperty) (xs : List TypedProperty) :
    groupConsec (x :: xs) ≠ [] := by
  unfold groupConsec
  cases groupConsec xs with
  | nil => simp
  | cons kg rest =>
    obtain ⟨k, g⟩ := kg
    by_cases he : x.interface = k
    · simp [he]
    · simp [he]

theorem groupConsec_keys_mem : ∀ (l : List TypedProperty) (k : String),
    k ∈ (groupConsec l).map Prod.fst ↔ k ∈ l.map TypedProperty.interface := by
  intro l
  induction l with
  | nil => intro k; simp [groupConsec]
  | cons x xs ih =>
    intro k
    have hstep : groupConsec (x :: xs) = match groupConsec xs with
      | [] => [(x.interface, [x])]
      | (kk, g) :: rest =>
        if x.interface = kk then (kk, x :: g) :: rest
        else (x.interface, [x]) :: (kk, g) :: rest := rfl
    cases hg : groupConsec xs with
    | nil =>
      have hxs : xs = [] := by
        cases xs with
        | nil => rfl
        | cons y ys => exact absurd hg (groupConsec_ne_nil y ys)
      subst hxs
      simp [groupConsec]
    | cons kg rest =>
      obtain ⟨kk, g⟩ := kg
      have hstep2 : groupConsec (x :: xs)
          = if x.interface = kk then (kk, x :: g) :: rest
            else (x.interface, [x]) :: (kk, g) :: rest := by
        rw [hstep, hg]
      rw [hstep2]
      have hkeys : (groupConsec xs).map Prod.fst = kk :: rest.map Prod.fst := by
        rw [hg, List.map_cons]
      by_cases he : x.interface = kk
      · rw [if_pos he, List.map_cons]
        rw [← hkeys, ih k, List.map_cons, List.mem_cons]
        constructor
        · exact fun h => Or.inr h
        · intro h
          rcases h with rfl | h
          · have hkk : kk ∈ (groupConsec xs).map Prod.fst := by
              rw [hkeys]
              exact List.mem_cons_self _ _
            have := (ih kk).mp hkk
            rw [he]
            exact this
          · exact h
      · rw [if_neg he, List.map_cons, List.map_cons, List.mem_cons, ← hkeys, ih k,
          List.map_cons, List.mem_cons]

theorem groupConsec_keys_sorted : ∀ (l : List TypedProperty),
    l.Sorted tpOrder → ((groupConsec l).map Prod.fst).Pairwise (· < ·) := by
  intro l
  induction l with
  | nil => intro _; simp [groupConsec]
  | cons x xs ih =>
    intro hs
    have hs' := List.sorted_cons.mp hs
    have hstep : groupConsec (x :: xs) = match groupConsec xs with
      | [] => [(x.interface, [x])]
      | (kk, g) :: rest =>
        if x.interface = kk then (kk, x :: g) :: rest
        else (x.interface, [x]) :: (kk, g) :: rest := rfl
    cases hg : groupConsec xs with
    | nil =>
      have hstep1 : groupConsec (x :: xs) = [(x.interface, [x])] := by
        rw [hstep, hg]
      rw [hstep1]
      simp
    | cons kg rest =>
      obtain ⟨kk, g⟩ := kg
      have hstep2 : groupConsec (x :: xs)
          = if x.interface = kk then (kk, x :: g) :: rest
            else (x.interface, [x]) :: (kk, g) :: rest := by
        rw [hstep, hg]
      rw [hstep2]
      have hkeys : (groupConsec xs).map Prod.fst = kk :: rest.map Prod.fst := by
        rw [hg, List.map_cons]
      have hprev := ih hs'.2
      rw [hkeys] at hprev
      have hbound : ∀ j ∈ (groupConsec xs).map Prod.fst, x.interface ≤ j := by
        intro j hj
        rcases List.mem_map.mp ((groupConsec_keys_mem xs j).mp hj) with ⟨tp, htp, rfl⟩
        exact hs'.1 tp htp
      have hkkb : x.interface ≤ kk := by
        refine hbound kk ?_
        rw [hkeys]
        exact List.mem_cons_self _ _
      by_cases he : x.interface = kk
      · rw [if_pos he, List.map_cons]
        exact hprev
      · rw [if_neg he, List.map_cons, List.map_cons]
        refine List.pairwise_cons.mpr ⟨?_, hprev⟩
        intro b hb
        rcases List.mem_cons.mp hb with rfl | hb'
        · exact lt_of_le_of_ne hkkb he
        · exact lt_of_le_of_lt (lt_of_le_of_ne hkkb he).le
            ((List.pairwise_cons.mp hprev).1 b hb')

/-- C4 (amended): the rendered interface blocks are exactly the distinct
owning interfaces of the emitted Typed Property Records — one block per
interface that owns at least one record, with pairwise-distinct block names;
an interface that receives no records (such as an empty `properties`
mapping) yields no block at all, so the block count can be smaller than
1 + the number of nested-`properties` occurrences (see the counterexample:
`{"properties": {}}` renders the empty output, not an empty `Root` block). -/
theorem interface_block_names_spec (tps : List TypedProperty) :
    (interfaceBlockNames tps).Nodup
    ∧ ∀ k, k ∈ interfaceBlockNames tps ↔ ∃ tp ∈ tps, tp.interface = k := by
  constructor
  · have hp := groupConsec_keys_sorted (List.insertionSort tpOrder tps)
      (List.sorted_insertionSort tpOrder tps)
    exact List.Pairwise.imp (fun h => ne_of_lt h) hp
  · intro k
    unfold interfaceBlockNames
    rw [groupConsec_keys_mem]
    constructor
    · intro h
      rcases List.mem_map.mp h with ⟨tp, htp, rfl⟩
      exact ⟨tp, (List.mem_insertionSort tpOrder).mp htp, rfl⟩
    · rintro ⟨tp, htp, rfl⟩
      exact List.mem_map.mpr ⟨tp, (List.mem_insertionSort tpOrder).mpr htp, rfl⟩

theorem interface_block_names_spec_witness :
    (interfaceBlockNames [⟨"B", "x", "number", "c"⟩]).Nodup
    ∧ ("B" ∈ interfaceBlockNames [⟨"B", "x", "number", "c"⟩]
        ↔ ∃ tp ∈ [(⟨"B", "x", "number", "c"⟩ : TypedProperty)], tp.interface = "B") :=
  ⟨(interface_block_names_spec [⟨"B", "x", "number", "c"⟩]).1,
   (interface_block_names_spec [⟨"B", "x", "number", "c"⟩]).2 "B"⟩

/-- C4 counterexample: the input `{"properties": {}}` with root name `Root`
yields NO interface block at all: the traversal emits zero records, the
block-name list is empty, and the full pipeline renders the empty string —
not one empty block named `Root`; hence also the count `0` differs from
`1 + 0` nested-`properties` occurrences. -/
theorem interface_block_count_counterexample :
    search_typed_properties "Root" (Json.obj [("properties", Json.obj [])]) []
        = Except.ok ([], ["Root"], [])
    ∧ interfaceBlockNames [] = []
    ∧ command "4w" "Root" false (Json.obj [("properties", Json.obj [])])
        = Except.ok "" := by
  have h1 : normalize_interface_name "Root" = "Root" := rfl
  have h2 : new_interface_name "Root" [] = ("Root", ["Root"]) := rfl
  have h3 : isInterfaceName "Root" = true := rfl
  have hsearch : search_typed_properties "Root" (Json.obj [("properties", Json.obj [])]) []
      = Except.ok ([], ["Root"], []) := by
    simp [search_typed_properties, genLookup, generate_typed_properties, genFields,
      hasKey, lookupKey, h1, h2, h3]
  refine ⟨hsearch, rfl, ?_⟩
  unfold command
  simp only [show parse_intent "4w" = some (4, ' ') from rfl, hsearch]
  rfl

/-- C8: the whole pipeline is a pure function of the parsed document and the
configuration (root interface name, indent specifier, optional flag) — the
used-name set starts empty each run, dict iteration order is the document's
own entry order, and the sort is the deterministic stable insertion sort —
so two runs on identical input and configuration produce identical output
text. -/
theorem command_deterministic (indent root : String) (optional : Bool) (doc : Json)
    (o1 o2 : Except PyErr String)
    (h1 : o1 = command indent root optional doc)
    (h2 : o2 = command indent root optional doc) : o1 = o2 :=
  h1.trans h2.symm

theorem command_deterministic_witness :
    (command "4w" "Root" false (Json.obj []) = command "4w" "Root" false (Json.obj []))
    ∧ command "4w" "Root" false (Json.obj []) = command "4w" "Root" false (Json.obj []) :=
  ⟨rfl, command_deterministic "4w" "Root" false (Json.obj []) _ _ rfl rfl⟩
